import Mathlib

/-!
Verification development for the C++ inventory management program
(`Item` / `InventoryManager` in the comprehensive source file).

Modelling conventions:
* `std::string` is modelled as `List Char` (`Str`).
* C++ `int` / `std::time_t` are modelled as `Int` (no claim exercises
  machine-width overflow).
* C++ `double` (the monetary fields `cost` / `sellingPrice`) is modelled
  as `ℚ`; the stream formatting `std::fixed << std::setprecision(2)` is
  modelled as rounding to a whole number of cents.
* Exceptions become `Option` results; the process-global `Item::nextId`
  counter is threaded explicitly, as is the wall clock (`now`) and the
  file system (an association list from path to the file's lines).
* `generateBarcode`'s random draw is passed in as an explicit argument.
-/

namespace Inventory

abbrev Str := List Char

/-! ### Decimal digits: printing and scanning -/

def digitChar (d : Nat) : Char := Char.ofNat (48 + d)

def charToDigit (c : Char) : Nat := c.toNat - 48

def isDigitChar (c : Char) : Bool := decide ('0' ≤ c) && decide (c ≤ '9')

/-- Decimal printing of a natural number, as `operator<<` produces it
(most significant digit first, no leading zeros, `0` for zero).
Fuel-based so that the kernel can evaluate it. -/
def natToCharsAux : Nat → Nat → Str → Str
  | 0, _, acc => acc
  | fuel + 1, n, acc =>
    if n < 10 then digitChar n :: acc
    else natToCharsAux fuel (n / 10) (digitChar (n % 10) :: acc)

def natToChars (n : Nat) : Str := natToCharsAux (n + 1) n []

/-- Decimal printing of an `int` (sign followed by digits). -/
def intToChars (n : Int) : Str :=
  if n < 0 then '-' :: natToChars n.natAbs else natToChars n.natAbs

/-- Big-endian accumulation of decimal digits, as `std::stoi` performs it. -/
def charsToNatAcc : Nat → Str → Nat
  | acc, [] => acc
  | acc, c :: cs => charsToNatAcc (acc * 10 + charToDigit c) cs

/-- The digit-consuming core of `std::stoi`: take the longest digit run;
fail when it is empty. -/
def stoiNat (s : Str) : Option Nat :=
  let ds := s.takeWhile isDigitChar
  if ds = [] then none else some (charsToNatAcc 0 ds)

/-- Sign handling of `std::stoi` after whitespace has been skipped. -/
def stoiSigned : Str → Option Int
  | [] => none
  | c :: rest =>
    if c = '-' then (stoiNat rest).map (fun n : Nat => -(n : Int))
    else if c = '+' then (stoiNat rest).map (fun n : Nat => (n : Int))
    else (stoiNat (c :: rest)).map (fun n : Nat => (n : Int))

/-- Model of `std::stoi` / `std::stoll`: optional leading spaces, optional
sign, then at least one digit; trailing characters are ignored. -/
def stoiM (s0 : Str) : Option Int := stoiSigned (s0.dropWhile (fun c => c == ' '))

/-- The unsigned part of `std::stod`: digits, an optional decimal point,
more digits; at least one digit overall.  (Exponents are not modelled;
the program never writes them.) -/
def stodMag (s : Str) : Option ℚ :=
  let d1 := s.takeWhile isDigitChar
  let r := s.dropWhile isDigitChar
  let d2 :=
    match r with
    | '.' :: r2 => r2.takeWhile isDigitChar
    | _ => []
  if d1 = [] ∧ d2 = [] then none
  else some ((charsToNatAcc 0 d1 : ℚ) + (charsToNatAcc 0 d2 : ℚ) / (10 : ℚ) ^ d2.length)

/-- Sign handling of `std::stod` after whitespace has been skipped. -/
def stodSigned : Str → Option ℚ
  | [] => none
  | c :: rest =>
    if c = '-' then (stodMag rest).map Neg.neg
    else if c = '+' then stodMag rest
    else stodMag (c :: rest)

/-- Model of `std::stod` on the strings this program produces and reads. -/
def stodM (s0 : Str) : Option ℚ := stodSigned (s0.dropWhile (fun c => c == ' '))

/-- `std::fixed << std::setprecision(2)` rounds the value to a whole
number of cents; model the rounding as floor of `q*100 + 1/2`. -/
def roundCents (q : ℚ) : Int := ⌊q * 100 + 1 / 2⌋

def twoDigits (m : Nat) : Str := [digitChar (m / 10), digitChar (m % 10)]

/-- Fixed two-decimal formatting of a monetary value. -/
def format2 (q : ℚ) : Str :=
  let n := roundCents q
  if n < 0 then '-' :: (natToChars (n.natAbs / 100) ++ '.' :: twoDigits (n.natAbs % 100))
  else natToChars (n.natAbs / 100) ++ '.' :: twoDigits (n.natAbs % 100)

/-! ### The CSV codec (`Item::escapeCSV`, `Item::parseCSVLine`) -/

/-- `Item::escapeCSV`'s quoting condition: the field contains a comma,
a quote, or a newline. -/
def needsQuoting (f : Str) : Bool := f.contains ',' || f.contains '"' || f.contains '\n'

/-- The body of `Item::escapeCSV`'s loop: double every quote. -/
def escQuotes : Str → Str
  | [] => []
  | c :: cs => if c = '"' then '"' :: '"' :: escQuotes cs else c :: escQuotes cs

def escapeCSV (f : Str) : Str :=
  if needsQuoting f then '"' :: (escQuotes f ++ ['"']) else f

/-- `Item::parseCSVLine`'s character scanner.  The C++ loop walks the line
with an `inQuotes` flag; on a quote inside quotes it looks one character
ahead to collapse an escaped double quote.  The lookahead is expressed here
by matching two characters at once. -/
def parseFieldsC : List Char → Bool → Str → List Str
  | [], _, field => [field]
  | '"' :: '"' :: rest, true, field => parseFieldsC rest true (field ++ ['"'])
  | '"' :: rest, true, field => parseFieldsC rest false field
  | '"' :: rest, false, field => parseFieldsC rest true field
  | ',' :: rest, true, field => parseFieldsC rest true (field ++ [','])
  | ',' :: rest, false, field => field :: parseFieldsC rest false []
  | c :: rest, inQ, field => parseFieldsC rest inQ (field ++ [c])

def parseCSVLine (line : Str) : List Str := parseFieldsC line false []

/-- Comma-joining as the `ostringstream` insertions in `Item::toCSV`
produce it. -/
def joinComma : List Str → Str
  | [] => []
  | [f] => f
  | f :: fs => f ++ ',' :: joinComma fs

/-! ### The record entity (`Item`) -/

structure Item where
  id : Int
  name : Str
  category : Str
  supplier : Str
  barcode : Str
  quantity : Int
  minimumStock : Int
  cost : ℚ
  sellingPrice : ℚ
  dateAdded : Int
  lastModified : Int
  expiryDate : Int
  location : Str
  description : Str
deriving DecidableEq

/-- `Item::toCSV`: the 14 fields, comma separated; the five free-form
strings are escaped, the barcode and the numbers are written raw; the two
monetary fields carry the fixed 2-decimal formatting. -/
def Item.toCSV (it : Item) : Str :=
  joinComma [intToChars it.id, escapeCSV it.name, escapeCSV it.category,
    escapeCSV it.supplier, it.barcode, intToChars it.quantity,
    intToChars it.minimumStock, format2 it.cost, format2 it.sellingPrice,
    intToChars it.dateAdded, intToChars it.lastModified, intToChars it.expiryDate,
    escapeCSV it.location, escapeCSV it.description]

def getCSVHeader : Str :=
  "ID,Name,Category,Supplier,Barcode,Quantity,MinimumStock,Cost,SellingPrice,DateAdded,LastModified,ExpiryDate,Location,Description".data

/-- The body of `Item::fromCSV` after `parseCSVLine`: parse the numeric
constructor arguments (any failure there throws before the constructor has
run), run the constructor (which consumes one id from the counter and then
validates), overwrite id/barcode/timestamps/description from the fields,
and finally advance the counter past the parsed id.  The pair's second
component is the resulting value of `Item::nextId`; `none` models a thrown
exception. -/
def Item.fromFields (fields : List Str) (nextId : Int) : Option Item × Int :=
  match stoiM (fields.getD 5 []), stoiM (fields.getD 6 []),
      stodM (fields.getD 7 []), stodM (fields.getD 8 []) with
  | some q, some minS, some c, some sp =>
    if fields.getD 1 [] = [] ∨ q < 0 ∨ c < 0 ∨ sp < 0 then (none, nextId + 1)
    else
      match stoiM (fields.getD 0 []), stoiM (fields.getD 9 []),
          stoiM (fields.getD 10 []), stoiM (fields.getD 11 []) with
      | some i, some da, some lm, some ex =>
        (some ⟨i, fields.getD 1 [], fields.getD 2 [], fields.getD 3 [],
          fields.getD 4 [], q, minS, c, sp, da, lm, ex,
          fields.getD 12 [], fields.getD 13 []⟩,
         if i ≥ nextId + 1 then i + 1 else nextId + 1)
      | _, _, _, _ => (none, nextId + 1)
  | _, _, _, _ => (none, nextId)

/-- `Item::fromCSV`: split the line into fields, reject when fewer than 14
were produced, otherwise run `fromFields`. -/
def Item.fromCSV (line : Str) (nextId : Int) : Option Item × Int :=
  if (parseCSVLine line).length < 14 then (none, nextId)
  else Item.fromFields (parseCSVLine line) nextId

/-! ### The store (`InventoryManager`) -/

/-- The state of the program: the owned record sequence, the global
`Item::nextId` counter, the file system (path to lines), the backing file
path, and the wall clock. -/
structure Sys where
  items : List Item
  nextId : Int
  fs : List (Str × List Str)
  dataFile : Str
  now : Int
deriving DecidableEq

def setFile : List (Str × List Str) → Str → List Str → List (Str × List Str)
  | [], p, content => [(p, content)]
  | (q, c) :: rest, p, content =>
    if q = p then (p, content) :: rest else (q, c) :: setFile rest p content

def getFile : List (Str × List Str) → Str → Option (List Str)
  | [], _ => none
  | (q, c) :: rest, p => if q = p then some c else getFile rest p

/-- `InventoryManager::saveToFile`: overwrite the backing file with the
header and one encoded line per record. -/
def saveToFile (s : Sys) : Sys :=
  { s with fs := setFile s.fs s.dataFile (getCSVHeader :: s.items.map Item.toCSV) }

/-- The `Item` constructor: assigns `id = nextId++` in the initializer list
(so the counter is consumed even when validation then throws), stamps both
timestamps with `now`, stores the generated barcode `bc`, leaves
`expiryDate = 0` and `description` empty, then runs `validateInput`. -/
def mkItem (name category : Str) (quantity : Int) (cost sellingPrice : ℚ)
    (supplier location : Str) (minimumStock : Int) (bc : Str)
    (now nextId : Int) : Option Item × Int :=
  (if name = [] ∨ quantity < 0 ∨ cost < 0 ∨ sellingPrice < 0 then none
   else some ⟨nextId, name, category, supplier, bc, quantity, minimumStock,
     cost, sellingPrice, now, now, 0, location, []⟩,
   nextId + 1)

/-- `InventoryManager::addItem` (comprehensive overload); `bc` stands for
`generateBarcode`'s random draw. -/
def addItem (s : Sys) (name category : Str) (quantity : Int) (cost sellingPrice : ℚ)
    (supplier location : Str) (minimumStock : Int) (bc : Str) : Bool × Sys :=
  match mkItem name category quantity cost sellingPrice supplier location
      minimumStock bc s.now s.nextId with
  | (some it, n) => (true, saveToFile { s with items := s.items ++ [it], nextId := n })
  | (none, n) => (false, { s with nextId := n })

/-- `InventoryManager::findItemById`: first record with the given id. -/
def findItem (s : Sys) (id : Int) : Option Item :=
  s.items.find? (fun it => it.id == id)

/-- Apply `f` to the first record carrying `id`, as mutation through the
pointer returned by `findItemById` does. -/
def updateFirstById (id : Int) (f : Item → Item) : List Item → List Item
  | [] => []
  | it :: rest => if it.id = id then f it :: rest else it :: updateFirstById id f rest

/-- The guarded setter cascade in `InventoryManager::updateItem`: a
non-empty name, a non-negative quantity, a non-negative cost are each
applied through the corresponding setter (each stamps `lastModified`);
sentinel values leave the field alone.  Under these guards no setter can
throw, so the `catch` branch of `updateItem` is unreachable. -/
def applyUpdate (newName : Str) (newQuantity : Int) (newCost : ℚ) (now : Int)
    (it : Item) : Item :=
  let it1 := if newName ≠ [] then { it with name := newName, lastModified := now } else it
  let it2 := if 0 ≤ newQuantity then { it1 with quantity := newQuantity, lastModified := now } else it1
  if 0 ≤ newCost then { it2 with cost := newCost, lastModified := now } else it2

/-- `InventoryManager::updateItem`. -/
def updateItem (s : Sys) (id : Int) (newName : Str) (newQuantity : Int)
    (newCost : ℚ) : Bool × Sys :=
  match findItem s id with
  | none => (false, s)
  | some _ =>
    if newName ≠ [] ∨ 0 ≤ newQuantity ∨ 0 ≤ newCost then
      (true, saveToFile { s with
        items := updateFirstById id (applyUpdate newName newQuantity newCost s.now) s.items })
    else (false, s)

def deleteFirstById (id : Int) : List Item → List Item
  | [] => []
  | it :: rest => if it.id = id then rest else it :: deleteFirstById id rest

/-- `InventoryManager::deleteItem`. -/
def deleteItem (s : Sys) (id : Int) : Bool × Sys :=
  match findItem s id with
  | none => (false, s)
  | some _ => (true, saveToFile { s with items := deleteFirstById id s.items })

/-- `InventoryManager::adjustQuantity`: `Item::updateQuantity` throws when
the result would go negative (caught: no change, no save); otherwise the
quantity is set and `lastModified` stamped, and the store persists. -/
def adjustQuantity (s : Sys) (id delta : Int) : Bool × Sys :=
  match findItem s id with
  | none => (false, s)
  | some it =>
    if it.quantity + delta < 0 then (false, s)
    else (true, saveToFile { s with
      items := updateFirstById id
        (fun it0 => { it0 with quantity := it0.quantity + delta, lastModified := s.now })
        s.items })

/-- `::tolower` in the C locale: only ASCII letters change. -/
def toLowerChar (c : Char) : Char :=
  if 'A' ≤ c ∧ c ≤ 'Z' then Char.ofNat (c.toNat + 32) else c

/-- `InventoryManager::toLower`. -/
def toLower (str : Str) : Str := str.map toLowerChar

/-- `std::string::find(needle) != npos`: some contiguous occurrence. -/
def strContains : Str → Str → Bool
  | [], needle => needle.isPrefixOf []
  | c :: rest, needle =>
    if needle.isPrefixOf (c :: rest) then true else strContains rest needle

/-- The match predicate of `InventoryManager::searchItems`. -/
def matchesSearch (term : Str) (it : Item) : Bool :=
  strContains (toLower it.name) (toLower term)
    || strContains (toLower it.category) (toLower term)
    || strContains (toLower it.supplier) (toLower term)
    || strContains it.barcode term

/-- `InventoryManager::searchItems`: the `matches` vector it builds,
in store order. -/
def searchItems (s : Sys) (term : Str) : List Item :=
  s.items.filter (matchesSearch term)

/-- `InventoryManager::exportToCSV`: write header plus encoded records to
the named path.  (The failure to open the file is not modelled; the claims
concern the success path.) -/
def exportToCSV (s : Sys) (filename : Str) : Bool × Sys :=
  (true, { s with fs := setFile s.fs filename (getCSVHeader :: s.items.map Item.toCSV) })

/-- One iteration of the import/load loop: skip empty lines, decode the
line, append on success, swallow the exception on failure; the id counter
moves as `Item::fromCSV` moves it. -/
def importLine (s : Sys) (line : Str) : Sys :=
  if line = [] then s
  else
    match Item.fromCSV line s.nextId with
    | (some it, n) => { s with items := s.items ++ [it], nextId := n }
    | (none, n) => { s with nextId := n }

def importLines : Sys → List Str → Sys
  | s, [] => s
  | s, l :: ls => importLines (importLine s l) ls

/-- `InventoryManager::importFromCSV`: fail if the file cannot be opened;
optionally clear the store; skip the header line; decode the remaining
lines independently; persist once at the end. -/
def importFromCSV (s : Sys) (filename : Str) (clearExisting : Bool) : Bool × Sys :=
  match getFile s.fs filename with
  | none => (false, s)
  | some lines =>
    let s1 := if clearExisting then { s with items := [] } else s
    (true, saveToFile (importLines s1 (lines.drop 1)))

/-- `InventoryManager::loadFromFile`: a missing backing file is fine;
otherwise run the same per-line loop (without a final save). -/
def loadFromFile (s : Sys) : Sys :=
  match getFile s.fs s.dataFile with
  | none => s
  | some lines => importLines s (lines.drop 1)

/-- The `InventoryManager` constructor: start empty and load the backing
file.  `nextId` is the current value of the process-global counter. -/
def initSys (fs : List (Str × List Str)) (dataFile : Str) (nextId now : Int) : Sys :=
  loadFromFile { items := [], nextId := nextId, fs := fs, dataFile := dataFile, now := now }

/-! ### Helpers for stating the claims -/

/-- Argument bundle for one `addItem` call. -/
structure AddArgs where
  name : Str
  category : Str
  quantity : Int
  cost : ℚ
  sellingPrice : ℚ
  supplier : Str
  location : Str
  minimumStock : Int
  bc : Str
deriving DecidableEq

def runAdd (s : Sys) (a : AddArgs) : Bool × Sys :=
  addItem s a.name a.category a.quantity a.cost a.sellingPrice a.supplier
    a.location a.minimumStock a.bc

/-- The ids handed out by a sequence of `addItem` calls (successful calls
assign the current counter value). -/
def addedIds : Sys → List AddArgs → List Int
  | _, [] => []
  | s, a :: rest =>
    match runAdd s a with
    | (true, s') => s.nextId :: addedIds s' rest
    | (false, s') => addedIds s' rest

/-- Specification-side substring relation (contiguous occurrence). -/
def isSubstring (needle hay : Str) : Prop := ∃ l r, hay = l ++ needle ++ r

/-- Id uniqueness together with the counter dominating every stored id. -/
def IdsOk (s : Sys) : Prop :=
  (s.items.map Item.id).Nodup ∧ ∀ it ∈ s.items, it.id < s.nextId

/-! ### Concrete inputs used by counterexamples and witnesses -/

/-- A valid record whose cost (a tenth of a cent) cannot survive the
2-decimal encoding. -/
def centItem : Item :=
  { id := 1, name := "a".data, category := "c".data, supplier := "s".data,
    barcode := "123456789".data, quantity := 1, minimumStock := 5,
    cost := 1 / 1000, sellingPrice := 0, dateAdded := 0, lastModified := 0,
    expiryDate := 0, location := "l".data, description := "d".data }

/-- A record with whole-cent prices and awkward strings (embedded commas,
quotes, a newline) for the round-trip witness. -/
def wholeCentItem : Item :=
  { id := 7, name := "Wi,dg\"et\n2".data, category := "Tools".data,
    supplier := "TechCorp".data, barcode := "987654321".data, quantity := 10,
    minimumStock := 5, cost := 3 / 2, sellingPrice := 4, dateAdded := 100,
    lastModified := 200, expiryDate := 0, location := "A1".data,
    description := "de,sc".data }

/-- A simple valid record for store-operation witnesses. -/
def wItem : Item :=
  { id := 1, name := "w".data, category := "General".data, supplier := [],
    barcode := "111222333".data, quantity := 3, minimumStock := 5, cost := 2,
    sellingPrice := 4, dateAdded := 0, lastModified := 0, expiryDate := 0,
    location := [], description := [] }

/-- A store holding `wItem`, for store-operation witnesses. -/
def wSys : Sys :=
  { items := [wItem], nextId := 2, fs := [],
    dataFile := "inventory_data.csv".data, now := 42 }

/-- Valid arguments for one `addItem` call. -/
def wArgs : AddArgs :=
  { name := "x".data, category := "General".data, quantity := 1, cost := 1,
    sellingPrice := 0, supplier := [], location := [], minimumStock := 5,
    bc := "555666777".data }

/-- An encoded record line carrying id 1. -/
def dupLine : Str := "1,a,c,s,111111111,1,5,1.00,0.00,0,0,0,l,d".data

def importPath : Str := "import.csv".data

/-- A fresh store whose file system holds an import file that lists the
id-1 record twice. -/
def dupSys : Sys :=
  { items := [], nextId := 1,
    fs := [(importPath, [getCSVHeader, dupLine, dupLine])],
    dataFile := "inventory_data.csv".data, now := 0 }

/-- An encoded record line carrying id 5. -/
def c4Line : Str := "5,n,c,s,222333444,2,5,1.00,0.00,0,0,0,l,d".data

/-- A line that parses to 15 fields but whose quantity field is not
numeric. -/
def extraLine : Str := "1,a,c,s,111111111,abc,5,1.00,0.00,0,0,0,l,d,extra".data

/-- A store loaded from a backing file that contains one good line and one
malformed line: the in-memory records no longer mirror the file. -/
def c8Sys : Sys :=
  initSys [("inventory_data.csv".data, [getCSVHeader, dupLine, "garbage".data])]
    ("inventory_data.csv".data) 1 0

/-- The record `c4Line` decodes to. -/
def c4Item : Item :=
  { id := 5, name := "n".data, category := "c".data, supplier := "s".data,
    barcode := "222333444".data, quantity := 2, minimumStock := 5, cost := 1,
    sellingPrice := 0, dateAdded := 0, lastModified := 0, expiryDate := 0,
    location := "l".data, description := "d".data }

end Inventory

namespace Inventory

attribute [local semireducible] Rat.mul Rat.inv Rat.add Rat.sub Rat.ofScientific

/-! ### Lemmas: digits -/

theorem charToDigit_digitChar {d : Nat} (h : d < 10) : charToDigit (digitChar d) = d := by
  interval_cases d <;> decide

theorem isDigitChar_digitChar {d : Nat} (h : d < 10) : isDigitChar (digitChar d) = true := by
  interval_cases d <;> decide

theorem isDigitChar_ranges {c : Char} (h : isDigitChar c = true) :
    c ≠ ',' ∧ c ≠ '"' ∧ c ≠ '\n' ∧ c ≠ ' ' ∧ c ≠ '-' ∧ c ≠ '+' ∧ c ≠ '.' := by
  refine ⟨?_, ?_, ?_, ?_, ?_, ?_, ?_⟩ <;>
    (intro hc; subst hc; exact absurd h (by decide))

theorem natToCharsAux_zero (n : Nat) (acc : Str) : natToCharsAux 0 n acc = acc := rfl

theorem natToCharsAux_succ (fuel n : Nat) (acc : Str) :
    natToCharsAux (fuel + 1) n acc =
      if n < 10 then digitChar n :: acc
      else natToCharsAux fuel (n / 10) (digitChar (n % 10) :: acc) := rfl

theorem charsToNatAcc_nil (a : Nat) : charsToNatAcc a [] = a := rfl

theorem charsToNatAcc_cons (a : Nat) (c : Char) (cs : Str) :
    charsToNatAcc a (c :: cs) = charsToNatAcc (a * 10 + charToDigit c) cs := rfl

theorem natToCharsAux_mem {fuel n : Nat} {acc : Str} {c : Char}
    (h : c ∈ natToCharsAux fuel n acc) : isDigitChar c = true ∨ c ∈ acc := by
  induction fuel generalizing n acc with
  | zero => rw [natToCharsAux_zero] at h; exact Or.inr h
  | succ fuel ih =>
    rw [natToCharsAux_succ] at h
    split at h
    · rcases List.mem_cons.1 h with h | h
      · exact Or.inl (h ▸ isDigitChar_digitChar (by omega))
      · exact Or.inr h
    · rcases ih h with h | h
      · exact Or.inl h
      · rcases List.mem_cons.1 h with h | h
        · exact Or.inl (h ▸ isDigitChar_digitChar (Nat.mod_lt _ (by omega)))
        · exact Or.inr h

theorem natToChars_all_digit {n : Nat} {c : Char} (h : c ∈ natToChars n) :
    isDigitChar c = true := by
  rcases natToCharsAux_mem h with h | h
  · exact h
  · simp at h

theorem natToCharsAux_eq_nil {fuel n : Nat} {acc : Str}
    (h : natToCharsAux fuel n acc = []) : acc = [] := by
  induction fuel generalizing n acc with
  | zero => rwa [natToCharsAux_zero] at h
  | succ fuel ih =>
    rw [natToCharsAux_succ] at h
    split at h
    · exact absurd h (by simp)
    · exact absurd (ih h) (by simp)

theorem natToChars_ne_nil (n : Nat) : natToChars n ≠ [] := by
  intro h
  rw [natToChars, natToCharsAux_succ] at h
  split at h
  · exact absurd h (by simp)
  · exact absurd (natToCharsAux_eq_nil h) (by simp)

theorem natToCharsAux_append (fuel n : Nat) (acc : Str) :
    natToCharsAux fuel n acc = natToCharsAux fuel n [] ++ acc := by
  induction fuel generalizing n acc with
  | zero => simp [natToCharsAux_zero]
  | succ fuel ih =>
    rw [natToCharsAux_succ, natToCharsAux_succ fuel n []]
    split
    · rfl
    · rw [ih (n / 10) (digitChar (n % 10) :: acc), ih (n / 10) [digitChar (n % 10)]]
      simp

theorem natToCharsAux_fuel_irrel {fuel fuel' n : Nat} (h : n < fuel) (h' : n < fuel') (acc : Str) :
    natToCharsAux fuel n acc = natToCharsAux fuel' n acc := by
  induction n using Nat.strong_induction_on generalizing fuel fuel' acc with
  | _ n ih =>
    match fuel, fuel' with
    | f + 1, f' + 1 =>
      rw [natToCharsAux_succ, natToCharsAux_succ f' n acc]
      split
      · rfl
      · exact ih (n / 10) (by omega) (by omega) (by omega) _

theorem natToChars_step {n : Nat} (h : 10 ≤ n) :
    natToChars n = natToChars (n / 10) ++ [digitChar (n % 10)] := by
  rw [natToChars, natToCharsAux_succ, if_neg (by omega),
    natToCharsAux_append, natToChars]
  congr 1
  exact natToCharsAux_fuel_irrel (by omega) (by omega) []

theorem charsToNatAcc_append (a : Nat) (l1 l2 : Str) :
    charsToNatAcc a (l1 ++ l2) = charsToNatAcc (charsToNatAcc a l1) l2 := by
  induction l1 generalizing a with
  | nil => simp [charsToNatAcc_nil]
  | cons c l1 ih => simp [charsToNatAcc_cons, ih]

theorem charsToNat_natToChars (n : Nat) : charsToNatAcc 0 (natToChars n) = n := by
  induction n using Nat.strong_induction_on with
  | _ n ih =>
    by_cases h : n < 10
    · rw [show natToChars n = [digitChar n] by
        rw [natToChars, natToCharsAux_succ, if_pos h]]
      rw [charsToNatAcc_cons, charsToNatAcc_nil, charToDigit_digitChar h]
      omega
    · rw [natToChars_step (by omega), charsToNatAcc_append, ih (n / 10) (by omega),
        charsToNatAcc_cons, charsToNatAcc_nil,
        charToDigit_digitChar (Nat.mod_lt _ (by omega))]
      omega

theorem takeWhile_all {p : Char → Bool} {l : Str} (h : ∀ c ∈ l, p c = true) :
    l.takeWhile p = l := by
  induction l with
  | nil => rfl
  | cons c l ih =>
    rw [List.takeWhile_cons, if_pos (h c (by simp))]
    rw [ih (fun c hc => h c (by simp [hc]))]

theorem stoiNat_natToChars (n : Nat) : stoiNat (natToChars n) = some n := by
  rw [stoiNat]
  simp only [takeWhile_all (fun c hc => natToChars_all_digit hc)]
  rw [if_neg (natToChars_ne_nil n), charsToNat_natToChars]

theorem natToChars_head_digit (n : Nat) :
    ∃ c cs, natToChars n = c :: cs ∧ isDigitChar c = true := by
  rcases h : natToChars n with _ | ⟨c, cs⟩
  · exact absurd h (natToChars_ne_nil n)
  · exact ⟨c, cs, rfl, natToChars_all_digit (by rw [h]; simp)⟩

theorem stoiSigned_cons (c : Char) (rest : Str) :
    stoiSigned (c :: rest) =
      if c = '-' then (stoiNat rest).map (fun n : Nat => -(n : Int))
      else if c = '+' then (stoiNat rest).map (fun n : Nat => (n : Int))
      else (stoiNat (c :: rest)).map (fun n : Nat => (n : Int)) := rfl

theorem stodSigned_cons (c : Char) (rest : Str) :
    stodSigned (c :: rest) =
      if c = '-' then (stodMag rest).map Neg.neg
      else if c = '+' then stodMag rest
      else stodMag (c :: rest) := rfl

theorem stoiM_intToChars (n : Int) : stoiM (intToChars n) = some n := by
  obtain ⟨c, cs, hrep, hdig⟩ := natToChars_head_digit n.natAbs
  obtain ⟨_, _, _, hsp, hmin, hplus, _⟩ := isDigitChar_ranges hdig
  by_cases hn : n < 0
  · rw [intToChars, if_pos hn, stoiM, List.dropWhile_cons]
    rw [if_neg (by decide), stoiSigned_cons, if_pos rfl, stoiNat_natToChars]
    simp only [Option.map_some']
    congr 1
    omega
  · rw [intToChars, if_neg hn, hrep, stoiM, List.dropWhile_cons]
    rw [if_neg (by simp [hsp]), stoiSigned_cons, if_neg hmin, if_neg hplus,
      ← hrep, stoiNat_natToChars]
    simp only [Option.map_some']
    congr 1
    omega

/-! ### Lemmas: the CSV scanner inverts the escaper -/

theorem parseFieldsC_nil (inQ : Bool) (field : Str) :
    parseFieldsC [] inQ field = [field] := rfl

theorem parseFieldsC_esc_quote (rest : List Char) (field : Str) :
    parseFieldsC ('"' :: '"' :: rest) true field = parseFieldsC rest true (field ++ ['"']) := rfl

theorem parseFieldsC_close_quote {rest : List Char} (h : rest.head? ≠ some '"') (field : Str) :
    parseFieldsC ('"' :: rest) true field = parseFieldsC rest false field := by
  refine parseFieldsC.eq_3 field rest ?_
  intro rest1 hr
  rw [hr] at h
  simp at h

theorem parseFieldsC_open_quote (rest : List Char) (field : Str) :
    parseFieldsC ('"' :: rest) false field = parseFieldsC rest true field :=
  parseFieldsC.eq_4 field rest

theorem parseFieldsC_comma_inQ (rest : List Char) (field : Str) :
    parseFieldsC (',' :: rest) true field = parseFieldsC rest true (field ++ [',']) := rfl

theorem parseFieldsC_comma (rest : List Char) (field : Str) :
    parseFieldsC (',' :: rest) false field = field :: parseFieldsC rest false [] := rfl

theorem parseFieldsC_other {c : Char} (h1 : c ≠ '"') (h2 : c ≠ ',') (rest : List Char)
    (inQ : Bool) (field : Str) :
    parseFieldsC (c :: rest) inQ field = parseFieldsC rest inQ (field ++ [c]) := by
  refine parseFieldsC.eq_7 inQ field c rest ?_ ?_ ?_ ?_ ?_ <;> intros <;> simp_all

theorem parseFieldsC_inQ_push {c : Char} (h1 : c ≠ '"') (rest : List Char) (field : Str) :
    parseFieldsC (c :: rest) true field = parseFieldsC rest true (field ++ [c]) := by
  by_cases h2 : c = ','
  · subst h2; exact parseFieldsC_comma_inQ rest field
  · exact parseFieldsC_other h1 h2 rest true field

theorem escQuotes_nil : escQuotes [] = [] := rfl

theorem escQuotes_cons (c : Char) (cs : Str) :
    escQuotes (c :: cs) =
      if c = '"' then '"' :: '"' :: escQuotes cs else c :: escQuotes cs := rfl

theorem needsQuoting_eq_false {f : Str} (h : ∀ c ∈ f, c ≠ ',' ∧ c ≠ '"' ∧ c ≠ '\n') :
    needsQuoting f = false := by
  have h1 : ¬ (',' ∈ f) := fun hm => ((h _ hm).1 rfl)
  have h2 : ¬ ('"' ∈ f) := fun hm => ((h _ hm).2.1 rfl)
  have h3 : ¬ ('\n' ∈ f) := fun hm => ((h _ hm).2.2 rfl)
  rw [needsQuoting]
  simp [h1, h2, h3]

theorem mem_of_needsQuoting_false {f : Str} (h : needsQuoting f = false) :
    ∀ c ∈ f, c ≠ '"' ∧ c ≠ ',' := by
  rw [needsQuoting] at h
  simp only [Bool.or_eq_false_iff] at h
  intro c hc
  constructor
  · intro hq; subst hq
    exact absurd hc (by simpa using h.1.2)
  · intro hq; subst hq
    exact absurd hc (by simpa using h.1.1)

theorem escapeCSV_eq_self {f : Str} (h : needsQuoting f = false) : escapeCSV f = f := by
  rw [escapeCSV, if_neg (by simp [h])]

theorem parse_unquoted (f : Str) : ∀ (s : List Char) (acc : Str),
    (∀ c ∈ f, c ≠ '"' ∧ c ≠ ',') →
    parseFieldsC (f ++ s) false acc = parseFieldsC s false (acc ++ f) := by
  induction f with
  | nil => intro s acc _; simp
  | cons c f ih =>
    intro s acc hf
    obtain ⟨h1, h2⟩ := hf c (by simp)
    rw [List.cons_append, parseFieldsC_other h1 h2,
      ih s (acc ++ [c]) (fun x hx => hf x (List.mem_cons_of_mem _ hx))]
    simp

theorem parse_quoted (f : Str) : ∀ (s : List Char) (acc : Str), s.head? ≠ some '"' →
    parseFieldsC (escQuotes f ++ ('"' :: s)) true acc = parseFieldsC s false (acc ++ f) := by
  induction f with
  | nil =>
    intro s acc hs
    rw [escQuotes_nil, List.nil_append, parseFieldsC_close_quote hs]
    simp
  | cons c f ih =>
    intro s acc hs
    by_cases hc : c = '"'
    · subst hc
      rw [escQuotes_cons, if_pos rfl, List.cons_append, List.cons_append,
        parseFieldsC_esc_quote, ih s (acc ++ ['"']) hs]
      simp
    · rw [escQuotes_cons, if_neg hc, List.cons_append, parseFieldsC_inQ_push hc,
        ih s (acc ++ [c]) hs]
      simp

theorem parse_escape_field (f : Str) (s : List Char) (acc : Str) (hs : s.head? ≠ some '"') :
    parseFieldsC (escapeCSV f ++ s) false acc = parseFieldsC s false (acc ++ f) := by
  rw [escapeCSV]
  by_cases hq : needsQuoting f = true
  · rw [if_pos hq]
    rw [show ('"' :: (escQuotes f ++ ['"'])) ++ s = '"' :: (escQuotes f ++ ('"' :: s)) by simp]
    rw [parseFieldsC_open_quote, parse_quoted f s acc hs]
  · rw [if_neg hq]
    exact parse_unquoted f s acc
      (mem_of_needsQuoting_false (Bool.eq_false_iff.2 (fun h => hq h)))

theorem joinComma_nil : joinComma [] = [] := rfl

theorem joinComma_single (f : Str) : joinComma [f] = f := rfl

theorem joinComma_cons2 (f g : Str) (fs : List Str) :
    joinComma (f :: g :: fs) = f ++ ',' :: joinComma (g :: fs) := rfl

theorem parse_join (fs : List Str) : ∀ (f : Str) (acc : Str),
    parseFieldsC (joinComma ((f :: fs).map escapeCSV)) false acc = (acc ++ f) :: fs := by
  induction fs with
  | nil =>
    intro f acc
    rw [List.map_cons, List.map_nil, joinComma_single]
    have h := parse_escape_field f [] acc (by simp)
    rw [List.append_nil] at h
    rw [h, parseFieldsC_nil]
  | cons g fs ih =>
    intro f acc
    rw [List.map_cons, List.map_cons, joinComma_cons2, ← List.map_cons]
    rw [parse_escape_field f (',' :: joinComma ((g :: fs).map escapeCSV)) acc (by simp)]
    rw [parseFieldsC_comma, ih g []]
    simp

theorem parseCSVLine_join (f : Str) (fs : List Str) :
    parseCSVLine (joinComma ((f :: fs).map escapeCSV)) = f :: fs := by
  rw [parseCSVLine, parse_join fs f []]
  simp

/-! ### Lemmas: two-decimal money formatting round-trips on whole cents -/

theorem takeWhile_append_stop {p : Char → Bool} {l1 l2 : Str} {c0 : Char}
    (h1 : ∀ c ∈ l1, p c = true) (h0 : p c0 = false) :
    (l1 ++ c0 :: l2).takeWhile p = l1 := by
  induction l1 with
  | nil => simp [List.takeWhile_cons, h0]
  | cons c l1 ih =>
    rw [List.cons_append, List.takeWhile_cons, if_pos (h1 c (by simp))]
    rw [ih (fun x hx => h1 x (List.mem_cons_of_mem _ hx))]

theorem dropWhile_append_stop {p : Char → Bool} {l1 l2 : Str} {c0 : Char}
    (h1 : ∀ c ∈ l1, p c = true) (h0 : p c0 = false) :
    (l1 ++ c0 :: l2).dropWhile p = c0 :: l2 := by
  induction l1 with
  | nil => simp [List.dropWhile_cons, h0]
  | cons c l1 ih =>
    rw [List.cons_append, List.dropWhile_cons, if_pos (h1 c (by simp))]
    exact ih (fun x hx => h1 x (List.mem_cons_of_mem _ hx))

theorem twoDigits_all_digit {m : Nat} (h : m < 100) :
    ∀ c ∈ twoDigits m, isDigitChar c = true := by
  intro c hc
  simp only [twoDigits, List.mem_cons, List.not_mem_nil, or_false] at hc
  rcases hc with hc | hc
  · exact hc ▸ isDigitChar_digitChar (by omega)
  · exact hc ▸ isDigitChar_digitChar (by omega)

theorem charsToNat_twoDigits {m : Nat} (h : m < 100) :
    charsToNatAcc 0 (twoDigits m) = m := by
  rw [twoDigits, charsToNatAcc_cons, charsToNatAcc_cons, charsToNatAcc_nil,
    charToDigit_digitChar (by omega : m / 10 < 10),
    charToDigit_digitChar (by omega : m % 10 < 10)]
  omega

theorem roundCents_cents (k : Nat) : roundCents ((k : ℚ) / 100) = k := by
  rw [roundCents, div_mul_cancel₀ _ (by norm_num : (100 : ℚ) ≠ 0)]
  rw [add_comm, Int.floor_add_nat, show ⌊(1 / 2 : ℚ)⌋ = 0 from by norm_num]
  omega

theorem format2_cents_repr (k : Nat) :
    format2 ((k : ℚ) / 100) = natToChars (k / 100) ++ '.' :: twoDigits (k % 100) := by
  rw [format2, roundCents_cents]
  rw [if_neg (by omega : ¬ ((k : Int) < 0))]
  norm_num

theorem stodMag_cents (k : Nat) :
    stodMag (natToChars (k / 100) ++ '.' :: twoDigits (k % 100)) = some ((k : ℚ) / 100) := by
  rw [stodMag]
  simp only [takeWhile_append_stop (fun c hc => natToChars_all_digit hc)
      (by decide : isDigitChar '.' = false),
    dropWhile_append_stop (fun c hc => natToChars_all_digit hc)
      (by decide : isDigitChar '.' = false)]
  simp only [takeWhile_all (twoDigits_all_digit (Nat.mod_lt _ (by omega)))]
  rw [if_neg (by simp [natToChars_ne_nil])]
  rw [charsToNat_natToChars, charsToNat_twoDigits (Nat.mod_lt _ (by omega))]
  congr 1
  have hk := Nat.div_add_mod k 100
  rw [twoDigits, show (10 : ℚ) ^ (List.length [digitChar (k % 100 / 10), digitChar (k % 100 % 10)]) = 100 by norm_num]
  field_simp
  norm_cast
  omega

theorem stodM_format2_cents (k : Nat) :
    stodM (format2 ((k : ℚ) / 100)) = some ((k : ℚ) / 100) := by
  obtain ⟨c, cs, hrep, hdig⟩ := natToChars_head_digit (k / 100)
  obtain ⟨_, _, _, hsp, hmin, hplus, _⟩ := isDigitChar_ranges hdig
  rw [format2_cents_repr, hrep, List.cons_append, stodM, List.dropWhile_cons,
    if_neg (by simp [hsp]), stodSigned_cons, if_neg hmin, if_neg hplus,
    ← List.cons_append, ← hrep, stodMag_cents]

theorem intToChars_mem {n : Int} {c : Char} (h : c ∈ intToChars n) :
    isDigitChar c = true ∨ c = '-' := by
  rw [intToChars] at h
  split at h
  · rcases List.mem_cons.1 h with h | h
    · exact Or.inr h
    · exact Or.inl (natToChars_all_digit h)
  · exact Or.inl (natToChars_all_digit h)

theorem needsQuoting_intToChars (n : Int) : needsQuoting (intToChars n) = false := by
  refine needsQuoting_eq_false ?_
  intro c hc
  rcases intToChars_mem hc with h | h
  · obtain ⟨h1, h2, h3, _⟩ := isDigitChar_ranges h
    exact ⟨h1, h2, h3⟩
  · subst h; refine ⟨by decide, by decide, by decide⟩

theorem format2_mem {q : ℚ} {c : Char} (h : c ∈ format2 q) :
    isDigitChar c = true ∨ c = '.' ∨ c = '-' := by
  rw [format2] at h
  split at h
  · rcases List.mem_cons.1 h with h | h
    · exact Or.inr (Or.inr h)
    · rcases List.mem_append.1 h with h | h
      · exact Or.inl (natToChars_all_digit h)
      · rcases List.mem_cons.1 h with h | h
        · exact Or.inr (Or.inl h)
        · exact Or.inl (twoDigits_all_digit (Nat.mod_lt _ (by omega)) _ h)
  · rcases List.mem_append.1 h with h | h
    · exact Or.inl (natToChars_all_digit h)
    · rcases List.mem_cons.1 h with h | h
      · exact Or.inr (Or.inl h)
      · exact Or.inl (twoDigits_all_digit (Nat.mod_lt _ (by omega)) _ h)

theorem needsQuoting_format2 (q : ℚ) : needsQuoting (format2 q) = false := by
  refine needsQuoting_eq_false ?_
  intro c hc
  rcases format2_mem hc with h | h | h
  · obtain ⟨h1, h2, h3, _⟩ := isDigitChar_ranges h
    exact ⟨h1, h2, h3⟩
  · subst h; refine ⟨by decide, by decide, by decide⟩
  · subst h; refine ⟨by decide, by decide, by decide⟩

/-! ### C1: the codec round-trip -/

theorem parse_toCSV {it : Item} (hbc : needsQuoting it.barcode = false) :
    parseCSVLine it.toCSV =
      [intToChars it.id, it.name, it.category, it.supplier, it.barcode,
       intToChars it.quantity, intToChars it.minimumStock, format2 it.cost,
       format2 it.sellingPrice, intToChars it.dateAdded, intToChars it.lastModified,
       intToChars it.expiryDate, it.location, it.description] := by
  conv_lhs =>
    rw [Item.toCSV,
      ← escapeCSV_eq_self (needsQuoting_intToChars it.id),
      ← escapeCSV_eq_self hbc,
      ← escapeCSV_eq_self (needsQuoting_intToChars it.quantity),
      ← escapeCSV_eq_self (needsQuoting_intToChars it.minimumStock),
      ← escapeCSV_eq_self (needsQuoting_format2 it.cost),
      ← escapeCSV_eq_self (needsQuoting_format2 it.sellingPrice),
      ← escapeCSV_eq_self (needsQuoting_intToChars it.dateAdded),
      ← escapeCSV_eq_self (needsQuoting_intToChars it.lastModified),
      ← escapeCSV_eq_self (needsQuoting_intToChars it.expiryDate)]
  rw [show [escapeCSV (intToChars it.id), escapeCSV it.name, escapeCSV it.category,
      escapeCSV it.supplier, escapeCSV it.barcode, escapeCSV (intToChars it.quantity),
      escapeCSV (intToChars it.minimumStock), escapeCSV (format2 it.cost),
      escapeCSV (format2 it.sellingPrice), escapeCSV (intToChars it.dateAdded),
      escapeCSV (intToChars it.lastModified), escapeCSV (intToChars it.expiryDate),
      escapeCSV it.location, escapeCSV it.description] =
      ([intToChars it.id, it.name, it.category, it.supplier, it.barcode,
        intToChars it.quantity, intToChars it.minimumStock, format2 it.cost,
        format2 it.sellingPrice, intToChars it.dateAdded, intToChars it.lastModified,
        intToChars it.expiryDate, it.location, it.description]).map escapeCSV
    by simp]
  exact parseCSVLine_join _ _

/-- C1 (amended): for every valid record whose two monetary fields are
whole numbers of cents and whose barcode contains no comma, quote, or
newline, decoding the encoded line reproduces every field exactly —
including when name, category, supplier, location, or description contain
embedded commas, quotes, or newlines. -/
theorem fromCSV_toCSV_roundtrip (it : Item) (n : Int) (k l : Nat)
    (hname : it.name ≠ [])
    (hq : 0 ≤ it.quantity)
    (hc : it.cost = (k : ℚ) / 100)
    (hs : it.sellingPrice = (l : ℚ) / 100)
    (hbc : needsQuoting it.barcode = false) :
    (Item.fromCSV it.toCSV n).1 = some it := by
  rw [Item.fromCSV, parse_toCSV hbc]
  rw [if_neg (by simp)]
  rw [Item.fromFields]
  simp only [List.getD_cons_zero, List.getD_cons_succ]
  rw [stoiM_intToChars, stoiM_intToChars, hc, hs, stodM_format2_cents, stodM_format2_cents]
  simp only []
  rw [if_neg (by
    push_neg
    refine ⟨hname, by omega, ?_, ?_⟩ <;> positivity)]
  rw [stoiM_intToChars, stoiM_intToChars, stoiM_intToChars, stoiM_intToChars]
  simp only []
  rw [← hc, ← hs]

/-- C1 counterexample: the claim fails on an arbitrary valid record — the
cost 1/1000 encodes as "0.00", so decoding the encoded line yields cost 0,
not the original cost. -/
theorem fromCSV_toCSV_not_inverse :
    (Item.fromCSV centItem.toCSV 1).1 = some { centItem with cost := 0 } ∧
      centItem.cost ≠ 0 := by
  constructor
  · decide
  · decide

/-- C1 witness: the amended round-trip at a concrete record with embedded
commas, quotes and a newline in its string fields. -/
theorem fromCSV_toCSV_roundtrip_witness :
    (Item.fromCSV wholeCentItem.toCSV 1).1 = some wholeCentItem :=
  fromCSV_toCSV_roundtrip wholeCentItem 1 150 400 (by decide) (by decide)
    (by norm_num [wholeCentItem]) (by norm_num [wholeCentItem]) (by decide)

/-! ### Lemmas: store plumbing -/

theorem saveToFile_items (s : Sys) : (saveToFile s).items = s.items := rfl

theorem saveToFile_nextId (s : Sys) : (saveToFile s).nextId = s.nextId := rfl

theorem updateFirstById_nil (id : Int) (f : Item → Item) :
    updateFirstById id f [] = [] := rfl

theorem updateFirstById_cons (id : Int) (f : Item → Item) (it : Item) (rest : List Item) :
    updateFirstById id f (it :: rest) =
      if it.id = id then f it :: rest else it :: updateFirstById id f rest := rfl

theorem deleteFirstById_nil (id : Int) : deleteFirstById id [] = [] := rfl

theorem deleteFirstById_cons (id : Int) (it : Item) (rest : List Item) :
    deleteFirstById id (it :: rest) =
      if it.id = id then rest else it :: deleteFirstById id rest := rfl

theorem find?_updateFirstById (id : Int) (f : Item → Item)
    (hid : ∀ x, (f x).id = x.id) (l : List Item) :
    (updateFirstById id f l).find? (fun it => it.id == id) =
      (l.find? (fun it => it.id == id)).map f := by
  induction l with
  | nil => rfl
  | cons it rest ih =>
    rw [updateFirstById_cons]
    by_cases h : it.id = id
    · rw [if_pos h, List.find?_cons_of_pos _ (by simp [hid, h]),
        List.find?_cons_of_pos _ (by simp [h]), Option.map_some']
    · rw [if_neg h, List.find?_cons_of_neg _ (by simp [h]),
        List.find?_cons_of_neg _ (by simp [h]), ih]

theorem mem_updateFirstById {id : Int} {f : Item → Item} {l : List Item} {x : Item}
    (hx : x ∈ updateFirstById id f l) : x ∈ l ∨ ∃ y ∈ l, x = f y := by
  induction l with
  | nil => simp [updateFirstById_nil] at hx
  | cons it rest ih =>
    rw [updateFirstById_cons] at hx
    split at hx
    · rcases List.mem_cons.1 hx with h | h
      · exact Or.inr ⟨it, by simp, h⟩
      · exact Or.inl (List.mem_cons_of_mem _ h)
    · rcases List.mem_cons.1 hx with h | h
      · exact Or.inl (h ▸ List.mem_cons_self _ _)
      · rcases ih h with h | ⟨y, hy, hxy⟩
        · exact Or.inl (List.mem_cons_of_mem _ h)
        · exact Or.inr ⟨y, List.mem_cons_of_mem _ hy, hxy⟩

theorem map_id_updateFirstById (id : Int) (f : Item → Item)
    (hid : ∀ x, (f x).id = x.id) (l : List Item) :
    (updateFirstById id f l).map Item.id = l.map Item.id := by
  induction l with
  | nil => rfl
  | cons it rest ih =>
    rw [updateFirstById_cons]
    split
    · simp [hid]
    · simp [ih]

theorem deleteFirstById_sublist (id : Int) (l : List Item) :
    List.Sublist (deleteFirstById id l) l := by
  induction l with
  | nil => exact List.Sublist.refl _
  | cons it rest ih =>
    rw [deleteFirstById_cons]
    split
    · exact List.sublist_cons_self _ _
    · exact List.Sublist.cons₂ _ ih

/-! ### C5: adjustQuantity -/

/-- C5: for a record found by id, `adjustQuantity` applies
`quantity += delta` and stamps `lastModified` when the result is
non-negative, and fails leaving the whole store untouched when the result
would be negative; in particular the delta `-(quantity+1)` fails and
leaves the record as it was. -/
theorem adjustQuantity_spec (s : Sys) (id delta : Int) (it : Item)
    (hfind : findItem s id = some it) :
    (0 ≤ it.quantity + delta →
      (adjustQuantity s id delta).1 = true ∧
      findItem (adjustQuantity s id delta).2 id =
        some { it with quantity := it.quantity + delta, lastModified := s.now })
    ∧ (it.quantity + delta < 0 → adjustQuantity s id delta = (false, s))
    ∧ (adjustQuantity s id (-(it.quantity + 1))).1 = false
    ∧ findItem (adjustQuantity s id (-(it.quantity + 1))).2 id = some it := by
  have hneg : it.quantity + -(it.quantity + 1) < 0 := by omega
  have hfail : adjustQuantity s id (-(it.quantity + 1)) = (false, s) := by
    rw [adjustQuantity, hfind]
    simp only []
    rw [if_pos hneg]
  refine ⟨?_, ?_, ?_, ?_⟩
  · intro h
    rw [adjustQuantity, hfind]
    simp only []
    rw [if_neg (by omega)]
    refine ⟨rfl, ?_⟩
    rw [findItem] at hfind ⊢
    simp only [saveToFile_items]
    rw [find?_updateFirstById id
        (fun it0 => { it0 with quantity := it0.quantity + delta, lastModified := s.now })
        (fun x => rfl),
      hfind, Option.map_some']
  · intro h
    rw [adjustQuantity, hfind]
    simp only []
    rw [if_pos h]
  · rw [hfail]
  · rw [hfail]; exact hfind

/-- C5 witness: on the concrete store, adding 5 succeeds and updates the
record, removing quantity+1 fails. -/
theorem adjustQuantity_spec_witness :
    ((adjustQuantity wSys 1 5).1 = true ∧
      findItem (adjustQuantity wSys 1 5).2 1 =
        some { wItem with quantity := 8, lastModified := 42 }) ∧
    adjustQuantity wSys 1 (-(wItem.quantity + 1)) = (false, wSys) := by
  refine ⟨(adjustQuantity_spec wSys 1 5 wItem rfl).1 (by decide), ?_⟩
  exact (adjustQuantity_spec wSys 1 (-(wItem.quantity + 1)) wItem rfl).2.1 (by decide)

/-! ### C9: the all-sentinel update is a complete no-op -/

/-- C9: calling `updateItem` on an existing id with every field at its
sentinel "unset" value (empty name, negative quantity, negative cost)
returns false and leaves the entire state — records, counter, and file
system — exactly as it was: no field changes, no `lastModified` stamp, and
no save of the backing file. -/
theorem updateItem_sentinel_noop (s : Sys) (id : Int) (newQuantity : Int) (newCost : ℚ)
    (it : Item) (hfind : findItem s id = some it)
    (hq : newQuantity < 0) (hc : newCost < 0) :
    updateItem s id [] newQuantity newCost = (false, s) := by
  rw [updateItem, hfind]
  simp only []
  rw [if_neg (by push_neg; exact ⟨rfl, hq, hc⟩)]

/-- C9 witness: the sentinel update on the concrete store. -/
theorem updateItem_sentinel_noop_witness :
    updateItem wSys 1 [] (-1) (-1) = (false, wSys) :=
  updateItem_sentinel_noop wSys 1 (-1) (-1) wItem rfl (by decide) (by norm_num)

/-! ### C6: invalid add leaves the store unchanged -/

/-- C6: an `addItem` call whose arguments fail construction-time
validation (empty name, or negative quantity, cost, or selling price)
returns false, and the record sequence and the file system are exactly
what they were; only the global id counter was consumed by the
constructor's initializer list. -/
theorem addItem_invalid_unchanged (s : Sys) (name category supplier location bc : Str)
    (quantity minimumStock : Int) (cost sellingPrice : ℚ)
    (hbad : name = [] ∨ quantity < 0 ∨ cost < 0 ∨ sellingPrice < 0) :
    (addItem s name category quantity cost sellingPrice supplier location minimumStock bc).1 = false
    ∧ (addItem s name category quantity cost sellingPrice supplier location minimumStock bc).2.items = s.items
    ∧ (addItem s name category quantity cost sellingPrice supplier location minimumStock bc).2.fs = s.fs := by
  rw [addItem, mkItem, if_pos hbad]
  exact ⟨rfl, rfl, rfl⟩

/-- C6 witness: the two invalid adds named by the spec — empty name, and
negative quantity. -/
theorem addItem_invalid_unchanged_witness :
    ((addItem wSys [] ("cat".data) 1 1 0 [] [] 5 ("999888777".data)).1 = false
      ∧ (addItem wSys [] ("cat".data) 1 1 0 [] [] 5 ("999888777".data)).2.items = wSys.items)
    ∧ (addItem wSys ("x".data) ("cat".data) (-1) 1 0 [] [] 5 ("999888777".data)).1 = false := by
  have h1 := addItem_invalid_unchanged wSys [] ("cat".data) [] [] ("999888777".data) 1 5 1 0
    (Or.inl rfl)
  have h2 := addItem_invalid_unchanged wSys ("x".data) ("cat".data) [] [] ("999888777".data)
    (-1) 5 1 0 (Or.inr (Or.inl (by decide)))
  exact ⟨⟨h1.1, h1.2.1⟩, h2.1⟩

/-! ### C2: per-field independence of updateItem -/

theorem applyUpdate_id (newName : Str) (newQuantity : Int) (newCost : ℚ) (now : Int)
    (it : Item) : (applyUpdate newName newQuantity newCost now it).id = it.id := by
  simp only [applyUpdate]
  split_ifs <;> rfl

theorem applyUpdate_eq (newName : Str) (newQuantity : Int) (newCost : ℚ) (now : Int)
    (it : Item) :
    applyUpdate newName newQuantity newCost now it =
      { it with
        name := if newName ≠ [] then newName else it.name,
        quantity := if 0 ≤ newQuantity then newQuantity else it.quantity,
        cost := if 0 ≤ newCost then newCost else it.cost,
        lastModified := if newName ≠ [] ∨ 0 ≤ newQuantity ∨ 0 ≤ newCost then now
          else it.lastModified } := by
  by_cases h1 : newName ≠ [] <;> by_cases h2 : 0 ≤ newQuantity <;> by_cases h3 : 0 ≤ newCost <;>
    simp [applyUpdate, h1, h2, h3]

/-- C2: on an existing id, each provided field of `updateItem` is applied
or rejected independently of the others: the resulting record's name,
quantity, and cost each depend only on their own argument (a provided
value is applied, a sentinel leaves the field).  Under the sentinel
interface a provided value always passes its setter's validation, so the
claim's failure case (one field invalid, the others still applied) holds
vacuously, and this theorem is its positive content. -/
theorem updateItem_fields_independent (s : Sys) (id : Int) (newName : Str)
    (newQuantity : Int) (newCost : ℚ) (it : Item)
    (hfind : findItem s id = some it)
    (hprov : newName ≠ [] ∨ 0 ≤ newQuantity ∨ 0 ≤ newCost) :
    (updateItem s id newName newQuantity newCost).1 = true ∧
    findItem (updateItem s id newName newQuantity newCost).2 id =
      some { it with
        name := if newName ≠ [] then newName else it.name,
        quantity := if 0 ≤ newQuantity then newQuantity else it.quantity,
        cost := if 0 ≤ newCost then newCost else it.cost,
        lastModified := s.now } := by
  rw [updateItem, hfind]
  simp only []
  rw [if_pos hprov]
  refine ⟨rfl, ?_⟩
  rw [findItem] at hfind ⊢
  simp only [saveToFile_items]
  rw [find?_updateFirstById id _ (applyUpdate_id newName newQuantity newCost s.now),
    hfind, Option.map_some', applyUpdate_eq, if_pos hprov]

/-- C2 witness: name and quantity provided, cost left at its sentinel. -/
theorem updateItem_fields_independent_witness :
    (updateItem wSys 1 ("nw".data) 9 (-1)).1 = true ∧
    findItem (updateItem wSys 1 ("nw".data) 9 (-1)).2 1 =
      some { wItem with name := "nw".data, quantity := 9, lastModified := 42 } := by
  have h := updateItem_fields_independent wSys 1 ("nw".data) 9 (-1) wItem rfl
    (Or.inl (by decide))
  exact ⟨h.1, by rw [h.2]; rfl⟩

/-! ### Lemmas: the id counter -/

theorem fromFields_shape (fields : List Str) (n : Int) :
    Item.fromFields fields n = (none, n) ∨ Item.fromFields fields n = (none, n + 1) ∨
      ∃ it, Item.fromFields fields n = (some it, if it.id ≥ n + 1 then it.id + 1 else n + 1) := by
  rw [Item.fromFields]
  split
  · split
    · exact Or.inr (Or.inl rfl)
    · split
      · exact Or.inr (Or.inr ⟨_, rfl⟩)
      · exact Or.inr (Or.inl rfl)
  · exact Or.inl rfl

theorem fromCSV_shape (line : Str) (n : Int) :
    Item.fromCSV line n = (none, n) ∨ Item.fromCSV line n = (none, n + 1) ∨
      ∃ it, Item.fromCSV line n = (some it, if it.id ≥ n + 1 then it.id + 1 else n + 1) := by
  rw [Item.fromCSV]
  split
  · exact Or.inl rfl
  · exact fromFields_shape _ n

theorem fromCSV_nextId_mono (line : Str) (n : Int) : n ≤ (Item.fromCSV line n).2 := by
  rcases fromCSV_shape line n with h | h | ⟨it, h⟩
  · rw [h]
  · rw [h]
    exact (by omega : n ≤ n + 1)
  · rw [h]
    exact (by split <;> omega : n ≤ if it.id ≥ n + 1 then it.id + 1 else n + 1)

theorem fromCSV_id_lt (line : Str) (n : Int) (it : Item)
    (h : (Item.fromCSV line n).1 = some it) : it.id < (Item.fromCSV line n).2 := by
  rcases fromCSV_shape line n with hsh | hsh | ⟨it', hsh⟩
  · rw [hsh] at h
    exact absurd h (by simp)
  · rw [hsh] at h
    exact absurd h (by simp)
  · rw [hsh] at h ⊢
    simp only [Option.some.injEq] at h
    subst h
    exact (by split <;> omega : it'.id < if it'.id ≥ n + 1 then it'.id + 1 else n + 1)

theorem importLine_nextId_mono (s : Sys) (line : Str) :
    s.nextId ≤ (importLine s line).nextId := by
  rw [importLine]
  split
  · exact le_refl _
  · rcases fromCSV_shape line s.nextId with h | h | ⟨it, h⟩
    · rw [h]
    · rw [h]
      exact (by omega : s.nextId ≤ s.nextId + 1)
    · rw [h]
      exact (by split <;> omega :
        s.nextId ≤ if it.id ≥ s.nextId + 1 then it.id + 1 else s.nextId + 1)

theorem importLine_items (s : Sys) (line : Str) :
    ∀ it ∈ (importLine s line).items, it ∈ s.items ∨ it.id < (importLine s line).nextId := by
  rw [importLine]
  split
  · intro it hit; exact Or.inl hit
  · rcases fromCSV_shape line s.nextId with h | h | ⟨itN, h⟩
    · rw [h]
      intro it hit; exact Or.inl hit
    · rw [h]
      intro it hit; exact Or.inl hit
    · rw [h]
      intro it hit
      rcases List.mem_append.1 hit with hmem | hmem
      · exact Or.inl hmem
      · simp only [List.mem_singleton] at hmem
        subst hmem
        exact Or.inr (by split <;> omega :
          it.id < if it.id ≥ s.nextId + 1 then it.id + 1 else s.nextId + 1)

theorem importLines_nil (s : Sys) : importLines s [] = s := rfl

theorem importLines_cons (s : Sys) (l : Str) (ls : List Str) :
    importLines s (l :: ls) = importLines (importLine s l) ls := rfl

theorem importLines_nextId_mono (ls : List Str) : ∀ s : Sys,
    s.nextId ≤ (importLines s ls).nextId := by
  induction ls with
  | nil => intro s; exact le_refl _
  | cons l ls ih =>
    intro s
    rw [importLines_cons]
    exact le_trans (importLine_nextId_mono s l) (ih (importLine s l))

theorem importLines_items (ls : List Str) : ∀ s : Sys,
    ∀ it ∈ (importLines s ls).items, it ∈ s.items ∨ it.id < (importLines s ls).nextId := by
  induction ls with
  | nil => intro s it hit; exact Or.inl hit
  | cons l ls ih =>
    intro s it hit
    rw [importLines_cons] at hit ⊢
    rcases ih (importLine s l) it hit with h | h
    · rcases importLine_items s l it h with h' | h'
      · exact Or.inl h'
      · exact Or.inr (lt_of_lt_of_le h' (importLines_nextId_mono ls (importLine s l)))
    · exact Or.inr h

theorem loadFromFile_items_lt (s : Sys) (hempty : s.items = []) :
    ∀ it ∈ (loadFromFile s).items, it.id < (loadFromFile s).nextId := by
  rw [loadFromFile]
  split
  · intro it hit; rw [hempty] at hit; simp at hit
  · intro it hit
    rcases importLines_items _ s it hit with h | h
    · rw [hempty] at h; simp at h
    · exact h

theorem initSys_items_lt (fs : List (Str × List Str)) (df : Str) (n0 t : Int) :
    ∀ it ∈ (initSys fs df n0 t).items, it.id < (initSys fs df n0 t).nextId := by
  rw [initSys]
  exact loadFromFile_items_lt _ rfl

theorem runAdd_nextId (s : Sys) (a : AddArgs) : (runAdd s a).2.nextId = s.nextId + 1 := by
  rw [runAdd, addItem, mkItem]
  split
  · rename_i it n heq
    simp only [Prod.mk.injEq] at heq
    show n = s.nextId + 1
    exact heq.2.symm
  · rename_i n heq
    simp only [Prod.mk.injEq] at heq
    show n = s.nextId + 1
    exact heq.2.symm

theorem runAdd_success (s : Sys) (a : AddArgs) (h : (runAdd s a).1 = true) :
    (runAdd s a).2.items = s.items ++
      [{ id := s.nextId, name := a.name, category := a.category, supplier := a.supplier,
         barcode := a.bc, quantity := a.quantity, minimumStock := a.minimumStock,
         cost := a.cost, sellingPrice := a.sellingPrice, dateAdded := s.now,
         lastModified := s.now, expiryDate := 0, location := a.location,
         description := [] }] := by
  rw [runAdd, addItem, mkItem] at h ⊢
  by_cases hbad : a.name = [] ∨ a.quantity < 0 ∨ a.cost < 0 ∨ a.sellingPrice < 0
  · rw [if_pos hbad] at h
    exact absurd h (by simp)
  · rw [if_neg hbad]
    rfl

theorem runAdd_failure (s : Sys) (a : AddArgs) (h : (runAdd s a).1 = false) :
    (runAdd s a).2.items = s.items := by
  rw [runAdd, addItem, mkItem] at h ⊢
  by_cases hbad : a.name = [] ∨ a.quantity < 0 ∨ a.cost < 0 ∨ a.sellingPrice < 0
  · rw [if_pos hbad]
  · rw [if_neg hbad] at h
    exact absurd h (by simp)

theorem addedIds_nil (s : Sys) : addedIds s [] = [] := rfl

theorem addedIds_cons (s : Sys) (a : AddArgs) (rest : List AddArgs) :
    addedIds s (a :: rest) =
      if (runAdd s a).1 = true then s.nextId :: addedIds (runAdd s a).2 rest
      else addedIds (runAdd s a).2 rest := by
  rcases h : runAdd s a with ⟨b, s'⟩
  rw [addedIds, h]
  cases b
  · simp
  · simp

theorem addedIds_lb (l : List AddArgs) : ∀ (s : Sys), ∀ x ∈ addedIds s l, s.nextId ≤ x := by
  induction l with
  | nil => intro s x hx; rw [addedIds_nil] at hx; simp at hx
  | cons a rest ih =>
    intro s x hx
    rw [addedIds_cons] at hx
    have hn := runAdd_nextId s a
    split at hx
    · rcases List.mem_cons.1 hx with h | h
      · omega
      · have := ih (runAdd s a).2 x h
        omega
    · have := ih (runAdd s a).2 x hx
      omega

theorem addedIds_pairwise (l : List AddArgs) : ∀ s : Sys,
    List.Pairwise (fun a b => a < b) (addedIds s l) := by
  induction l with
  | nil => intro s; rw [addedIds_nil]; exact List.Pairwise.nil
  | cons a rest ih =>
    intro s
    rw [addedIds_cons]
    have hn := runAdd_nextId s a
    split
    · refine List.Pairwise.cons ?_ (ih _)
      intro x hx
      have := addedIds_lb rest (runAdd s a).2 x hx
      omega
    · exact ih _

/-! ### C4: the id counter only increases -/

/-- C4: decoding never decreases the id counter and always leaves it
strictly above the decoded record's id; after a load from a persisted
file every loaded record's id is below the counter, so the next
successful add appends a record whose id strictly exceeds every id
loaded from the file; and the ids assigned by any sequence of adds are
strictly increasing, hence pairwise distinct. -/
theorem nextId_counter_spec :
    (∀ (line : Str) (n : Int), n ≤ (Item.fromCSV line n).2)
    ∧ (∀ (line : Str) (n : Int) (it : Item),
        (Item.fromCSV line n).1 = some it → it.id < (Item.fromCSV line n).2)
    ∧ (∀ (fs : List (Str × List Str)) (df : Str) (n0 t : Int) (a : AddArgs),
        (runAdd (initSys fs df n0 t) a).1 = true →
        ∃ itN, (runAdd (initSys fs df n0 t) a).2.items = (initSys fs df n0 t).items ++ [itN]
          ∧ ∀ it ∈ (initSys fs df n0 t).items, it.id < itN.id)
    ∧ (∀ (s : Sys) (l : List AddArgs), List.Pairwise (fun a b => a < b) (addedIds s l)) := by
  refine ⟨fromCSV_nextId_mono, fromCSV_id_lt, ?_, fun s l => addedIds_pairwise l s⟩
  intro fs df n0 t a h
  refine ⟨_, runAdd_success _ a h, ?_⟩
  intro it hit
  exact initSys_items_lt fs df n0 t it hit

/-- C4 witness: a concrete decode bumps the counter past the decoded id 5,
and two concrete adds assign increasing ids. -/
theorem nextId_counter_spec_witness :
    c4Item.id < (Item.fromCSV c4Line 1).2 ∧
    List.Pairwise (fun a b => a < b) (addedIds wSys [wArgs, wArgs]) :=
  ⟨nextId_counter_spec.2.1 c4Line 1 c4Item (by decide),
   nextId_counter_spec.2.2.2 wSys [wArgs, wArgs]⟩

/-! ### C3: id uniqueness -/

/-- C3 counterexample: importing a file that lists the same id twice (with
`clearExisting = false`, from a fresh store) produces a store whose record
sequence carries the id 1 twice — the claimed invariant fails on a
reachable state because `importFromCSV` keeps the file's original ids and
never checks them against the store. -/
theorem import_duplicate_ids :
    (importFromCSV dupSys importPath false).2.items.map Item.id = [1, 1] ∧
    ¬ ((importFromCSV dupSys importPath false).2.items.map Item.id).Nodup := by
  refine ⟨by decide, ?_⟩
  intro h
  rw [(by decide :
    (importFromCSV dupSys importPath false).2.items.map Item.id = [1, 1])] at h
  exact absurd h (by decide)

/-- C3 (amended): id uniqueness (with the counter above every stored id)
is an invariant of `addItem`, `updateItem`, `deleteItem`, and
`adjustQuantity`; the import/load path can break it. -/
theorem idsOk_preserved (s : Sys) (h : IdsOk s) :
    (∀ a : AddArgs, IdsOk (runAdd s a).2)
    ∧ (∀ (id : Int) (nm : Str) (q : Int) (c : ℚ), IdsOk (updateItem s id nm q c).2)
    ∧ (∀ id : Int, IdsOk (deleteItem s id).2)
    ∧ (∀ id delta : Int, IdsOk (adjustQuantity s id delta).2) := by
  obtain ⟨hnd, hlt⟩ := h
  refine ⟨?_, ?_, ?_, ?_⟩
  · intro a
    have hn := runAdd_nextId s a
    by_cases hok : (runAdd s a).1 = true
    · have hitems := runAdd_success s a hok
      constructor
      · rw [hitems]
        simp only [List.map_append, List.map_cons, List.map_nil]
        rw [List.nodup_append]
        refine ⟨hnd, List.nodup_singleton _, ?_⟩
        intro x hx hx'
        simp only [List.mem_singleton] at hx'
        rcases List.mem_map.1 hx with ⟨y, hy, hxy⟩
        have := hlt y hy
        omega
      · intro it hit
        rw [hitems] at hit
        rw [hn]
        rcases List.mem_append.1 hit with hm | hm
        · have := hlt it hm
          omega
        · simp only [List.mem_singleton] at hm
          subst hm
          simp only []
          omega
    · have hitems := runAdd_failure s a (by simpa using hok)
      constructor
      · rw [hitems]; exact hnd
      · intro it hit
        rw [hitems] at hit
        have := hlt it hit
        omega
  · intro id nm q c
    rw [updateItem]
    rcases hf : findItem s id with _ | it
    · exact ⟨hnd, hlt⟩
    · simp only []
      split
      · constructor
        · simp only [saveToFile_items]
          rw [map_id_updateFirstById id _ (applyUpdate_id nm q c s.now)]
          exact hnd
        · intro it' hit'
          simp only [saveToFile_items, saveToFile_nextId] at hit' ⊢
          rcases mem_updateFirstById hit' with hm | ⟨y, hy, hy'⟩
          · exact hlt it' hm
          · rw [hy', applyUpdate_id]
            exact hlt y hy
      · exact ⟨hnd, hlt⟩
  · intro id
    rw [deleteItem]
    rcases hf : findItem s id with _ | it
    · exact ⟨hnd, hlt⟩
    · simp only []
      constructor
      · simp only [saveToFile_items]
        exact hnd.sublist ((deleteFirstById_sublist id s.items).map Item.id)
      · intro it' hit'
        simp only [saveToFile_items, saveToFile_nextId] at hit' ⊢
        exact hlt it' ((deleteFirstById_sublist id s.items).subset hit')
  · intro id delta
    rw [adjustQuantity]
    rcases hf : findItem s id with _ | it
    · exact ⟨hnd, hlt⟩
    · simp only []
      split
      · exact ⟨hnd, hlt⟩
      · constructor
        · simp only [saveToFile_items]
          rw [map_id_updateFirstById id
            (fun it0 => { it0 with quantity := it0.quantity + delta, lastModified := s.now })
            (fun x => rfl)]
          exact hnd
        · intro it' hit'
          simp only [saveToFile_items, saveToFile_nextId] at hit' ⊢
          rcases mem_updateFirstById hit' with hm | ⟨y, hy, hy'⟩
          · exact hlt it' hm
          · rw [hy']
            exact hlt y hy

/-- C3 witness: the preserved invariant applied to concrete operations on
a concrete well-formed store. -/
theorem idsOk_preserved_witness :
    IdsOk (runAdd wSys wArgs).2 ∧ IdsOk (deleteItem wSys 1).2 :=
  ⟨(idsOk_preserved wSys ⟨by decide, by decide⟩).1 wArgs,
   (idsOk_preserved wSys ⟨by decide, by decide⟩).2.2.1 1⟩

/-! ### C7: search -/

theorem isPrefixOf_spec (a : Str) : ∀ b : Str, a.isPrefixOf b = true ↔ ∃ t, b = a ++ t := by
  induction a with
  | nil =>
    intro b
    constructor
    · intro _; exact ⟨b, rfl⟩
    · intro _; cases b <;> rfl
  | cons c a ih =>
    intro b
    cases b with
    | nil =>
      constructor
      · intro h; exact absurd h (by simp [List.isPrefixOf])
      · rintro ⟨t, ht⟩; exact absurd ht (by simp)
    | cons d b' =>
      rw [show (c :: a).isPrefixOf (d :: b') = ((c == d) && a.isPrefixOf b') from rfl]
      rw [Bool.and_eq_true, beq_iff_eq, ih b']
      constructor
      · rintro ⟨hcd, t, ht⟩
        exact ⟨t, by rw [List.cons_append, hcd, ht]⟩
      · rintro ⟨t, ht⟩
        rw [List.cons_append] at ht
        injection ht with h1 h2
        exact ⟨h1.symm, t, h2⟩

theorem strContains_nil (needle : Str) :
    strContains [] needle = needle.isPrefixOf [] := rfl

theorem strContains_cons (c : Char) (rest needle : Str) :
    strContains (c :: rest) needle =
      if needle.isPrefixOf (c :: rest) then true else strContains rest needle := rfl

theorem strContains_spec (hay : Str) : ∀ needle : Str,
    strContains hay needle = true ↔ isSubstring needle hay := by
  induction hay with
  | nil =>
    intro needle
    rw [strContains_nil, isPrefixOf_spec]
    constructor
    · rintro ⟨t, ht⟩
      obtain ⟨h1, h2⟩ := List.append_eq_nil.1 ht.symm
      exact ⟨[], [], by simp [h1]⟩
    · rintro ⟨l, r, h⟩
      have hlen := congrArg List.length h
      simp only [List.length_nil, List.length_append] at hlen
      have hn : needle = [] := List.length_eq_zero.1 (by omega)
      exact ⟨[], by simp [hn]⟩
  | cons c rest ih =>
    intro needle
    rw [strContains_cons]
    by_cases hp : needle.isPrefixOf (c :: rest) = true
    · rw [if_pos hp]
      constructor
      · intro _
        obtain ⟨t, ht⟩ := (isPrefixOf_spec _ _).1 hp
        exact ⟨[], t, by simpa using ht⟩
      · intro _; rfl
    · rw [if_neg hp, ih needle]
      constructor
      · rintro ⟨l, r, h⟩
        exact ⟨c :: l, r, by simp [h]⟩
      · rintro ⟨l, r, h⟩
        cases l with
        | nil =>
          exact absurd ((isPrefixOf_spec _ _).2 ⟨r, by simpa using h⟩) hp
        | cons d l' =>
          simp only [List.cons_append, List.cons.injEq] at h
          exact ⟨l', r, h.2⟩

theorem matchesSearch_iff (term : Str) (it : Item) :
    matchesSearch term it = true ↔
      (isSubstring (toLower term) (toLower it.name)
        ∨ isSubstring (toLower term) (toLower it.category)
        ∨ isSubstring (toLower term) (toLower it.supplier)
        ∨ isSubstring term it.barcode) := by
  rw [matchesSearch]
  simp only [Bool.or_eq_true, strContains_spec]
  tauto

/-- C7: `searchItems` returns exactly the records whose lowercased name,
category, or supplier contains the lowercased term as a substring, or
whose barcode contains the term verbatim (case-sensitively) — a record
matches if ANY of the four matches — and the result is a sublist of the
store's sequence, so store order is preserved. -/
theorem searchItems_spec (s : Sys) (term : Str) :
    (∀ it, it ∈ searchItems s term ↔
      it ∈ s.items ∧
        (isSubstring (toLower term) (toLower it.name)
          ∨ isSubstring (toLower term) (toLower it.category)
          ∨ isSubstring (toLower term) (toLower it.supplier)
          ∨ isSubstring term it.barcode))
    ∧ List.Sublist (searchItems s term) s.items := by
  constructor
  · intro it
    rw [searchItems, List.mem_filter, matchesSearch_iff]
  · exact List.filter_sublist _

/-! ### C8: export -/

theorem setFile_nil (p : Str) (content : List Str) :
    setFile [] p content = [(p, content)] := rfl

theorem setFile_cons (q : Str) (c : List Str) (rest : List (Str × List Str))
    (p : Str) (content : List Str) :
    setFile ((q, c) :: rest) p content =
      if q = p then (p, content) :: rest else (q, c) :: setFile rest p content := rfl

theorem getFile_nil (p : Str) : getFile [] p = none := rfl

theorem getFile_cons (q : Str) (c : List Str) (rest : List (Str × List Str)) (p : Str) :
    getFile ((q, c) :: rest) p = if q = p then some c else getFile rest p := rfl

theorem getFile_setFile_same (fs : List (Str × List Str)) (p : Str) (content : List Str) :
    getFile (setFile fs p content) p = some content := by
  induction fs with
  | nil => rw [setFile_nil, getFile_cons, if_pos rfl]
  | cons qc rest ih =>
    rcases qc with ⟨q, c⟩
    rw [setFile_cons]
    by_cases h : q = p
    · rw [if_pos h, getFile_cons, if_pos rfl]
    · rw [if_neg h, getFile_cons, if_neg h]
      exact ih

theorem getFile_setFile_other (fs : List (Str × List Str)) (p q : Str)
    (content : List Str) (h : q ≠ p) :
    getFile (setFile fs p content) q = getFile fs q := by
  induction fs with
  | nil =>
    rw [setFile_nil, getFile_cons, if_neg (fun hp => h hp.symm), getFile_nil]
  | cons rc rest ih =>
    rcases rc with ⟨r, c⟩
    rw [setFile_cons]
    by_cases hr : r = p
    · rw [if_pos hr, getFile_cons, if_neg (fun hp => h hp.symm), getFile_cons,
        if_neg (by rw [hr]; exact fun hp => h hp.symm)]
    · rw [if_neg hr, getFile_cons, getFile_cons]
      by_cases hq : r = q
      · rw [if_pos hq, if_pos hq]
      · rw [if_neg hq, if_neg hq]
        exact ih

/-- C8 counterexample: on a reachable store whose backing file contains a
malformed line (skipped at load), exporting to the backing file's own path
rewrites that file and changes its content — the claim's "does not mutate
the default backing file" fails for that path. -/
theorem exportToCSV_to_backing_mutates :
    getFile (exportToCSV c8Sys c8Sys.dataFile).2.fs c8Sys.dataFile ≠
      getFile c8Sys.fs c8Sys.dataFile := by decide

/-- C8 (amended): `exportToCSV` reports success, writes the header
followed by one encoded line per record in store order to the given path,
and never mutates the record sequence or the id counter; the default
backing file is untouched provided the export path differs from it. -/
theorem exportToCSV_spec (s : Sys) (path : Str) :
    (exportToCSV s path).1 = true
    ∧ (exportToCSV s path).2.items = s.items
    ∧ (exportToCSV s path).2.nextId = s.nextId
    ∧ getFile (exportToCSV s path).2.fs path = some (getCSVHeader :: s.items.map Item.toCSV)
    ∧ (path ≠ s.dataFile →
        getFile (exportToCSV s path).2.fs s.dataFile = getFile s.fs s.dataFile) := by
  refine ⟨rfl, rfl, rfl, getFile_setFile_same s.fs path _, ?_⟩
  intro hne
  exact getFile_setFile_other s.fs path s.dataFile _ (fun h => hne h.symm)

/-- C8 witness: export to a fresh path on the concrete store. -/
theorem exportToCSV_spec_witness :
    getFile (exportToCSV wSys ("out.csv".data)).2.fs ("out.csv".data) =
      some (getCSVHeader :: wSys.items.map Item.toCSV)
    ∧ getFile (exportToCSV wSys ("out.csv".data)).2.fs wSys.dataFile =
        getFile wSys.fs wSys.dataFile :=
  ⟨(exportToCSV_spec wSys ("out.csv".data)).2.2.2.1,
   (exportToCSV_spec wSys ("out.csv".data)).2.2.2.2 (by decide)⟩

/-! ### C10: field-count handling in decode -/

theorem fromFields_take14 (fields : List Str) (n : Int) :
    Item.fromFields fields n = Item.fromFields (fields.take 14) n := by
  have hg : ∀ i : Nat, i < 14 → (fields.take 14).getD i [] = fields.getD i [] := by
    intro i hi
    rw [List.getD_eq_getElem?_getD, List.getD_eq_getElem?_getD, List.getElem?_take,
      if_pos hi]
  rw [show Item.fromFields (fields.take 14) n = Item.fromFields fields n by
    rw [Item.fromFields, Item.fromFields,
      hg 0 (by omega), hg 1 (by omega), hg 2 (by omega), hg 3 (by omega),
      hg 4 (by omega), hg 5 (by omega), hg 6 (by omega), hg 7 (by omega),
      hg 8 (by omega), hg 9 (by omega), hg 10 (by omega), hg 11 (by omega),
      hg 12 (by omega), hg 13 (by omega)]]

theorem fromFields_description (fields : List Str) (n : Int) (it : Item)
    (h : (Item.fromFields fields n).1 = some it) : it.description = fields.getD 13 [] := by
  rw [Item.fromFields] at h
  split at h
  · split at h
    · exact absurd h (by simp)
    · split at h
      · simp only [Option.some.injEq] at h
        rw [← h]
      · exact absurd h (by simp)
  · exact absurd h (by simp)

/-- C10 counterexample: a line that parses to 15 fields is not accepted —
its quantity field is not numeric, so decode rejects it even though more
than 14 fields were produced. -/
theorem extra_fields_line_rejected :
    14 < (parseCSVLine extraLine).length ∧ (Item.fromCSV extraLine 1).1 = none := by
  exact ⟨by decide, by decide⟩

/-- C10 (amended): decode rejects a line that parses to fewer than 14
fields; with 14 or more fields the result depends only on the first 14
(every extra field is ignored), and any successfully decoded record takes
its description from exactly the 14th field.  A line with at least 14
fields can still be rejected, when a numeric field fails to parse or
construction-time validation fails. -/
theorem fromCSV_extra_fields (line : Str) (n : Int) :
    ((parseCSVLine line).length < 14 → Item.fromCSV line n = (none, n))
    ∧ (14 ≤ (parseCSVLine line).length →
        Item.fromCSV line n = Item.fromFields ((parseCSVLine line).take 14) n)
    ∧ (∀ it : Item, (Item.fromCSV line n).1 = some it →
        it.description = (parseCSVLine line).getD 13 []) := by
  refine ⟨?_, ?_, ?_⟩
  · intro h
    rw [Item.fromCSV, if_pos h]
  · intro h
    rw [Item.fromCSV, if_neg (by omega)]
    exact fromFields_take14 _ n
  · intro it h
    rw [Item.fromCSV] at h
    split at h
    · exact absurd h (by simp)
    · exact fromFields_description _ _ _ h

/-- C10 witness: a short line is rejected; the 15-field line's decode
agrees with the decode of its first 14 fields; a decoded record's
description is its 14th field. -/
theorem fromCSV_extra_fields_witness :
    Item.fromCSV ("x".data) 3 = (none, 3)
    ∧ Item.fromCSV extraLine 1 = Item.fromFields ((parseCSVLine extraLine).take 14) 1
    ∧ c4Item.description = (parseCSVLine c4Line).getD 13 [] :=
  ⟨(fromCSV_extra_fields ("x".data) 3).1 (by decide),
   (fromCSV_extra_fields extraLine 1).2.1 (by decide),
   (fromCSV_extra_fields c4Line 1).2.2 c4Item (by decide)⟩

end Inventory
